import Mathlib

set_option maxHeartbeats 1000000

/-!
Verification development for the web-drop-swiftshare signaling and
file-transfer service.

The repository contains two rewrites of the same `WebRTCService`:

* `src/services/webrtc.ts` — the localStorage-backed variant, whose
  Signaling Relay uses a per-reader cursor (`lastMessageIndex`);
* the unnamed variant (`part_000`) — the HTTP-cache-backed variant, whose
  Signaling Relay uses a shared `processedBy` set, and whose `sendFile`
  sends indexed chunks (`chunkIndex` / `totalChunks`).

Both are embedded below.  Definitions carry the source function's name,
suffixed `W` for the `webrtc.ts` variant and `PB` for the `processedBy`
(`part_000`) variant where both exist.  Machine integers of the source are
JavaScript numbers used only as array indices, sizes and counters, so they
are modelled as `Nat`; byte values are modelled as `Nat` as well (their
range is irrelevant to every property proved here).  The opaque WebRTC
payloads (session descriptions, ICE candidates) are not inspected by any
property and are omitted from the message model.
-/

/-- A signaling message as stored in a room's message log
(`SignalMessage` in webrtc.ts; the part_000 variant additionally carries a
`processedBy` array, absent/`undefined` being modelled as `[]`).  The
source field `from` is a Lean keyword and is rendered `from_`. -/
structure SignalMessage where
  type : String
  from_ : String
  to_ : Option String
  fromName : Option String
  timestamp : Nat
  processedBy : List String
  deriving DecidableEq

/-- A roster entry (`{ id, name }` in both variants). -/
structure Peer where
  id : String
  name : String
  deriving DecidableEq

/-- A room record (`RoomData` in webrtc.ts; part_000 builds the same
shape). -/
structure RoomData where
  id : String
  creator : String
  creatorName : String
  peers : List Peer
  messages : List SignalMessage
  created : Nat
  deriving DecidableEq

/-! ## Signaling Relay, cursor design (webrtc.ts `pollForMessages`) -/

/-- One poll of webrtc.ts `pollForMessages` (lines 179–199): take the
messages from `lastMessageIndex` on (`messages.slice(this.lastMessageIndex)`),
dispatch those whose `from` differs from the local id, and advance the
cursor to the log's length.  Returns the dispatched messages in log order
together with the new cursor. -/
def pollForMessagesW (localId : String) (messages : List SignalMessage)
    (lastMessageIndex : Nat) : List SignalMessage × Nat :=
  ((messages.drop lastMessageIndex).filter fun m => m.from_ != localId,
   messages.length)

/-- A sequence of polls of webrtc.ts `pollForMessages`: each poll reads the
room log current at that time and threads the cursor.  Returns the list of
per-poll dispatch lists. -/
def runPollsW (localId : String) : List (List SignalMessage) → Nat →
    List (List SignalMessage)
  | [], _ => []
  | log :: rest, cursor =>
    (pollForMessagesW localId log cursor).1 ::
      runPollsW localId rest (pollForMessagesW localId log cursor).2

/-! ## Signaling Relay, processedBy design (part_000 `startSignalingPolling`) -/

/-- The unread-message predicate of part_000's poll (lines 334–338):
`(msg.to === localId || msg.to === 'broadcast') && msg.from !== localId &&
!msg.processedBy?.includes(localId)`. -/
def unreadFilter (localId : String) (m : SignalMessage) : Bool :=
  (m.to_ == some localId || m.to_ == some "broadcast") &&
    m.from_ != localId && !(m.processedBy.contains localId)

/-- Marking a message processed (part_000 lines 345–346):
`message.processedBy.push(localId)`. -/
def markProcessed (localId : String) (m : SignalMessage) : SignalMessage :=
  { m with processedBy := m.processedBy ++ [localId] }

/-- One poll of part_000's relay loop (lines 329–357): select the unread
messages, dispatch them in log order, mark each as processed in the log
and save the log.  Returns the dispatched messages and the saved log. -/
def pollPB (localId : String) (msgs : List SignalMessage) :
    List SignalMessage × List SignalMessage :=
  (msgs.filter (unreadFilter localId),
   msgs.map fun m => if unreadFilter localId m then markProcessed localId m else m)

/-! ## Transfer Engine, webrtc.ts variant (`sendFile`, `handleFileStart`,
`handleFileChunk`, `handleFileEnd`) -/

/-- A message on the data channel, webrtc.ts wire format (lines 447–485):
`file-start {id, name, size, mimeType}`, `file-chunk {id, chunk}` (note: no
sequence number in this variant), `file-end {id}`. -/
inductive WMsg where
  | fileStart (id name : String) (size : Nat) (mimeType : String)
  | fileChunk (id : String) (chunk : List Nat)
  | fileEnd (id : String)
  deriving DecidableEq

/-- The chunk-read loop of webrtc.ts `sendFile` (lines 456–491):
`sendNextChunk` slices `file.slice(offset, offset + chunkSize)`, the
`onload` handler sends the chunk, advances `offset` by the chunk's length,
and recurses while `offset < file.size`, so the first chunk is sent even
for an empty file.  The loop structure is rendered with a fuel argument;
`sendFileChunksW` supplies enough fuel for the loop to run to completion
whenever `chunkSize > 0` (the source fixes `chunkSize = 16384`). -/
def sendFileChunksGoW (chunkSize : Nat) (file : List Nat) :
    Nat → Nat → List (List Nat)
  | _, 0 => []
  | offset, fuel + 1 =>
    let chunk := (file.drop offset).take chunkSize
    if offset + chunk.length < file.length then
      chunk :: sendFileChunksGoW chunkSize file (offset + chunk.length) fuel
    else [chunk]

/-- The chunks sent by webrtc.ts `sendFile`, in send order. -/
def sendFileChunksW (chunkSize : Nat) (file : List Nat) : List (List Nat) :=
  sendFileChunksGoW chunkSize file 0 (file.length + 1)

/-- The full data-channel message sequence emitted by webrtc.ts `sendFile`
(lines 437–492) once past the channel guard: one `file-start`, the chunk
messages of the read loop, one `file-end`. -/
def sendFileW (chunkSize : Nat) (file : List Nat)
    (transferId name mimeType : String) : List WMsg :=
  WMsg.fileStart transferId name file.length mimeType ::
    (sendFileChunksW chunkSize file).map (WMsg.fileChunk transferId) ++
    [WMsg.fileEnd transferId]

/-- The channel guard of webrtc.ts `sendFile` (lines 438–441): look up the
data channel for the target peer and fail with `Data channel not ready`
when it is absent or its `readyState` is not `open`; otherwise emit the
message sequence.  The error is raised before any message is emitted.
Channels are modelled as an association list peer id ↦ readyState. -/
def sendFileGuardedW (dataChannels : List (String × String)) (peerId : String)
    (chunkSize : Nat) (file : List Nat) (transferId name mimeType : String) :
    Except String (List WMsg) :=
  match dataChannels.lookup peerId with
  | none => .error "Data channel not ready"
  | some st =>
    if st != "open" then .error "Data channel not ready"
    else .ok (sendFileW chunkSize file transferId name mimeType)

/-- The chunk-concatenation step of webrtc.ts `handleFileEnd`
(lines 404–435): allocate a buffer of the total size and copy each
accumulated chunk at its running offset — i.e. concatenate the chunks in
arrival order. -/
def handleFileEndW (chunks : List (List Nat)) : List Nat :=
  chunks.foldl (fun combined chunk => combined ++ chunk) []

/-- Receiver state for a single transfer: the accumulated chunk buffers
(`receivedFiles[id].chunks`) and, once `file-end` arrived, the assembled
byte sequence. -/
structure RecvState where
  chunks : List (List Nat)
  assembled : Option (List Nat)
  deriving DecidableEq

/-- One data-channel message handled by the webrtc.ts receiver
(`setupDataChannel` dispatching to `handleFileStart` / `handleFileChunk` /
`handleFileEnd`): `file-start` initialises an empty chunk accumulator,
`file-chunk` appends the chunk's bytes in arrival order, `file-end`
concatenates the accumulated chunks. -/
def recvStepW (s : RecvState) (m : WMsg) : RecvState :=
  match m with
  | .fileStart _ _ _ _ => { s with chunks := [] }
  | .fileChunk _ chunk => { s with chunks := s.chunks ++ [chunk] }
  | .fileEnd _ => { s with assembled := some (handleFileEndW s.chunks) }

/-- Run the webrtc.ts receiver over a message sequence delivered in order
and without loss, returning the assembled bytes (if `file-end` arrived). -/
def receiveFileW (msgs : List WMsg) : Option (List Nat) :=
  (msgs.foldl recvStepW { chunks := [], assembled := none }).assembled

/-! ## Transfer progress (webrtc.ts `sendFile` lines 474–476 and
`handleFileChunk` lines 391–402) -/

/-- `Math.round((bytes / size) * 100)` on JavaScript numbers.  For
`size = 0` the source computes `0 / 0 = NaN` and reports `NaN` to the
progress callback; `NaN` is modelled as `none`.  For `size > 0` the value
is the exact rational rounded half-up, which is what `Math.round` computes
(both operands are small nonnegative integers). -/
def progressPct (bytes size : Nat) : Option Nat :=
  if size = 0 then none else some ((200 * bytes + size) / (2 * size))

/-- The rounded percentage for a nonzero size. -/
def progressPctN (bytes size : Nat) : Nat :=
  (200 * bytes + size) / (2 * size)

/-- The running offsets after each sent (or received) chunk: partial sums
of the chunk lengths (`offset += chunk.length` on the sender,
`totalReceived` on the receiver). -/
def offsetsAfter (chunkLens : List Nat) : List Nat :=
  (chunkLens.scanl (· + ·) 0).tail

/-- The progress values reported by the webrtc.ts sender callback, one per
chunk message, in order (line 475: `Math.round((offset / file.size) * 100)`
after `offset += chunk.length`). -/
def senderProgressW (chunkSize : Nat) (file : List Nat) : List (Option Nat) :=
  (offsetsAfter ((sendFileChunksW chunkSize file).map List.length)).map
    fun o => progressPct o file.length

/-- The progress values reported by the webrtc.ts receiver callback
(`handleFileChunk`, line 398: `Math.round((totalReceived / size) * 100)`),
one per arriving chunk, given the arrival-order chunk lengths and the size
announced by `file-start`. -/
def receiverProgressW (arrivedLens : List Nat) (size : Nat) : List (Option Nat) :=
  (offsetsAfter arrivedLens).map fun o => progressPct o size

/-! ## Transfer Engine, part_000 variant (`sendFile`, lines 185–244) -/

/-- A message on the data channel, part_000 wire format: `file-info`,
`file-chunk {transferId, chunkIndex, totalChunks, data}`,
`transfer-complete`. -/
inductive XferMsg where
  | fileInfo (id name : String) (size : Nat)
  | fileChunk (transferId : String) (chunkIndex totalChunks : Nat) (data : List Nat)
  | transferComplete (transferId : String)
  deriving DecidableEq

/-- `Math.ceil(file.size / chunkSize)` of part_000 `sendFile` (line 214),
for a positive chunk size. -/
def totalChunksPB (chunkSize size : Nat) : Nat :=
  (size + chunkSize - 1) / chunkSize

/-- The bytes of chunk `i` in part_000 `sendFile` (lines 217–219):
`start = i * chunkSize`, `end = min(start + chunkSize, file.size)`,
`file.slice(start, end)`. -/
def chunkDataPB (chunkSize : Nat) (file : List Nat) (i : Nat) : List Nat :=
  let start := i * chunkSize
  let stop := min (start + chunkSize) file.length
  (file.drop start).take (stop - start)

/-- The full data-channel message sequence emitted by part_000 `sendFile`
(lines 185–244) once past the channel guard: one `file-info`, then one
`file-chunk` per loop iteration `i = 0 .. totalChunks - 1`, then one
`transfer-complete`. -/
def sendFilePB (chunkSize : Nat) (file : List Nat) (transferId name : String) :
    List XferMsg :=
  let total := totalChunksPB chunkSize file.length
  XferMsg.fileInfo transferId name file.length ::
    (List.range total).map
      (fun i => XferMsg.fileChunk transferId i total (chunkDataPB chunkSize file i)) ++
    [XferMsg.transferComplete transferId]

/-- Is a part_000 message a `file-chunk`?  (Used to count and extract the
chunk messages of a sequence.) -/
def isChunkPB : XferMsg → Bool
  | .fileChunk _ _ _ _ => true
  | _ => false

/-- The `chunkIndex` of a part_000 `file-chunk` message. -/
def chunkIndexOfPB : XferMsg → Option Nat
  | .fileChunk _ i _ _ => some i
  | _ => none

/-- The payload bytes of a part_000 `file-chunk` message. -/
def chunkBytesOfPB : XferMsg → Option (List Nat)
  | .fileChunk _ _ _ d => some d
  | _ => none

/-! ## Roster append (`joinRoom` in both variants) -/

/-- The roster-append step of `joinRoom` (webrtc.ts lines 128–133,
part_000 lines 278–283): look for an entry with the joiner's id and push
the joiner only when none is found.  part_000 uses
`peers.find(p => p.id === localId)`; webrtc.ts's
`findIndex(...) === -1` is the same test. -/
def appendPeer (peers : List Peer) (p : Peer) : List Peer :=
  match peers.find? (fun q => q.id == p.id) with
  | none => peers ++ [p]
  | some _ => peers

/-! ## Session Negotiator (webrtc.ts `handleSignalMessage`,
`createPeerConnection`, `joinRoom`) -/

/-- One per-remote-peer session of webrtc.ts: an entry of the `peers` map,
together with the role the connection was created in
(`createPeerConnection(peerId, initiator)`). -/
structure PeerEntry where
  id : String
  offerer : Bool
  deriving DecidableEq

/-- The local negotiator state the role-assignment claims are about: the
sessions map (with creation role) and the messages appended to the room
log by the local peer (`sendSignalMessage`). -/
structure WState where
  sessions : List PeerEntry
  outbox : List SignalMessage
  deriving DecidableEq

/-- The `join` message appended by webrtc.ts `joinRoom` (lines 139–145):
`{type: 'join', from: localId, data: {}, fromName: localName, timestamp}` —
it carries no `to` field. -/
def joinMessageW (localId localName : String) (now : Nat) : SignalMessage :=
  { type := "join", from_ := localId, to_ := none,
    fromName := some localName, timestamp := now, processedBy := [] }

/-- The `offer` message sent by webrtc.ts `createPeerConnection` when
created as initiator (lines 284–291); the session-description payload is
opaque and not modelled. -/
def offerMessageW (localId localName peerId : String) (now : Nat) : SignalMessage :=
  { type := "offer", from_ := localId, to_ := some peerId,
    fromName := some localName, timestamp := now, processedBy := [] }

/-- The `answer` message sent by webrtc.ts `handleOffer` (lines 314–321). -/
def answerMessageW (localId localName peerId : String) (now : Nat) : SignalMessage :=
  { type := "answer", from_ := localId, to_ := some peerId,
    fromName := some localName, timestamp := now, processedBy := [] }

/-- webrtc.ts `handleSignalMessage` (lines 201–236), projected onto the
sessions map and the appended messages:

* `join` (lines 205–212): if no session exists for the sender, create the
  peer connection **as initiator** (`createPeerConnection(from, true)`),
  which opens the data channel and appends an `offer` addressed to the
  sender;
* `offer` (lines 214–218, guard `to === localId || !to`): if no session
  exists, create it **as non-initiator** (`createPeerConnection(from,
  false)`); apply the offer and append an `answer`;
* `answer` / `ice-candidate` (lines 220–230): applied to the existing
  transport, touching neither the sessions map nor the log;
* `leave` (lines 232–234): `handlePeerLeave` deletes the session.

Transport-level actions (`setRemoteDescription`, `addIceCandidate`,
callbacks) have no effect on this projection. -/
def handleSignalMessageW (localId localName : String) (now : Nat)
    (s : WState) (m : SignalMessage) : WState :=
  if m.type = "join" then
    if s.sessions.any (fun e => e.id == m.from_) then s
    else
      { sessions := s.sessions ++ [{ id := m.from_, offerer := true }],
        outbox := s.outbox ++ [offerMessageW localId localName m.from_ now] }
  else if m.type = "offer" then
    if m.to_ = some localId ∨ m.to_ = none then
      let s' :=
        if s.sessions.any (fun e => e.id == m.from_) then s
        else { s with sessions := s.sessions ++ [{ id := m.from_, offerer := false }] }
      { s' with outbox := s'.outbox ++ [answerMessageW localId localName m.from_ now] }
    else s
  else if m.type = "leave" then
    { s with sessions := s.sessions.filter (fun e => e.id != m.from_) }
  else s

/-- webrtc.ts `joinRoom` (lines 105–148), projected onto the same local
negotiator state: it writes the roster to the store and appends its own
`join` message, but creates no peer connection and sends no offer. -/
def joinRoomStepW (localId localName : String) (now : Nat) (s : WState) : WState :=
  { s with outbox := s.outbox ++ [joinMessageW localId localName now] }

/-! ## Disconnect handling (webrtc.ts `handlePeerLeave`,
`createPeerConnection`'s `onconnectionstatechange`) -/

/-- The local connection state the disconnect claims are about: the
`peers` and `dataChannels` maps (as key sets) and the sequence of
peer-disconnected notifications fired so far. -/
structure PState where
  peers : List String
  dataChannels : List String
  disconnectedFired : List String
  deriving DecidableEq

/-- webrtc.ts `handlePeerLeave` (lines 340–348): close and delete the peer
connection, delete the data channel, and fire `onPeerDisconnected` — the
notification is fired **unconditionally**, whether or not a session for
the peer id still existed.  `Map.delete` is modelled as removal of the
key. -/
def handlePeerLeaveW (s : PState) (peerId : String) : PState :=
  { peers := s.peers.filter (fun q => q != peerId),
    dataChannels := s.dataChannels.filter (fun q => q != peerId),
    disconnectedFired := s.disconnectedFired ++ [peerId] }

/-- A sequence of terminal events for a local process, each naming a peer
id: a transport `connectionState` change to `disconnected`/`failed`
(lines 268–271) and an incoming `leave` message (line 233) both invoke
`handlePeerLeave` for that id. -/
def processTerminalEventsW (s : PState) (events : List String) : PState :=
  events.foldl handlePeerLeaveW s

/-! ## Mailbox Store and `joinRoom` (webrtc.ts lines 105–148, part_000
lines 270–298) -/

/-- The key-value store backing the mailbox (localStorage in webrtc.ts,
the HTTP cache in part_000), modelled as a map from keys to room
records. -/
def Store : Type := String → Option RoomData

/-- `localStorage.getItem` / `getRoomData`. -/
def storeGet (s : Store) (key : String) : Option RoomData := s key

/-- `localStorage.setItem` / `saveRoomData`: replace the value at the
key. -/
def storeSet (s : Store) (key : String) (v : RoomData) : Store :=
  fun k => if k = key then some v else s k

/-- The empty store. -/
def storeEmpty : Store := fun _ => none

/-- The localStorage key used by webrtc.ts (line 111). -/
def roomKeyW (roomId : String) : String := "sharerooms_" ++ roomId

/-- webrtc.ts `sendSignalMessage` (lines 164–177): read the room record,
and only if it exists, push the message and save. -/
def sendSignalMessageW (store : Store) (roomId : String) (m : SignalMessage) :
    Store :=
  match storeGet store (roomKeyW roomId) with
  | some rd => storeSet store (roomKeyW roomId)
      { rd with messages := rd.messages ++ [m] }
  | none => store

/-- webrtc.ts `joinRoom` (lines 105–148) acting on the store: read the
room record, or build a fresh one with the **joining peer as creator**
when none exists (lines 114–126); add the joiner to the roster when
absent, saving only in that case (lines 129–133); then append the `join`
message (lines 139–145).  All failures are caught in the source, so the
operation always succeeds — there is no NotFound outcome.  Starting the
signaling interval has no effect on the store. -/
def joinRoomW (store : Store) (roomId localId localName : String) (now : Nat) :
    Store :=
  let roomData : RoomData :=
    match storeGet store (roomKeyW roomId) with
    | some rd => rd
    | none =>
      { id := roomId, creator := localId, creatorName := localName,
        peers := [], messages := [], created := now }
  let store1 : Store :=
    match roomData.peers.find? (fun p => p.id == localId) with
    | none => storeSet store (roomKeyW roomId)
        { roomData with peers := roomData.peers ++ [⟨localId, localName⟩] }
    | some _ => store
  sendSignalMessageW store1 roomId (joinMessageW localId localName now)

/-- The `peer-joined` broadcast appended by part_000 `joinRoom`
(lines 286–290) via `sendSignalingMessage` (lines 415–436), which stamps
`from`, `to`, `peerName`, `timestamp` and `processedBy: []`; the
duplicated `peerId`/`peerName` payload fields are not modelled. -/
def peerJoinedMessagePB (localId localName : String) (now : Nat) : SignalMessage :=
  { type := "peer-joined", from_ := localId, to_ := some "broadcast",
    fromName := some localName, timestamp := now, processedBy := [] }

/-- The room shape built by part_000 `sendSignalingMessage` when the store
has no record (`getRoomData() || { messages: [] }`). -/
def bareRoomPB : RoomData :=
  { id := "", creator := "", creatorName := "", peers := [], messages := [],
    created := 0 }

/-- part_000 `sendSignalingMessage` (lines 415–436): read the room record
(falling back to a bare `{messages: []}` object), push the stamped
message, and save. -/
def sendSignalingMessagePB (store : Store) (roomId : String)
    (m : SignalMessage) : Store :=
  let rd := (storeGet store roomId).getD bareRoomPB
  storeSet store roomId { rd with messages := rd.messages ++ [m] }

/-- part_000 `joinRoom` (lines 270–298) acting on the store: read the room
record; **only if it exists**, add the joiner to the roster (saving when
added) and append the `peer-joined` broadcast.  When no record exists the
branch is skipped entirely — no room is created, nothing is written, and
the operation still returns successfully (it just starts polling). -/
def joinRoomPB (store : Store) (roomId localId localName : String) (now : Nat) :
    Store :=
  match storeGet store roomId with
  | none => store
  | some rd =>
    let store1 : Store :=
      match rd.peers.find? (fun p => p.id == localId) with
      | none => storeSet store roomId
          { rd with peers := rd.peers ++ [⟨localId, localName⟩] }
      | some _ => store
    sendSignalingMessagePB store1 roomId (peerJoinedMessagePB localId localName now)

/-! # Theorems -/

/-! ## C6 — roster append is idempotent and keeps ids unique -/

/-- C6: appending the same peer id to a roster twice is a no-op the second
time; on a roster with unique ids the result holds exactly one entry for
that id and again has unique ids (webrtc.ts `joinRoom` lines 128–133,
part_000 `joinRoom` lines 278–283). -/
theorem C6_appendPeer_idempotent (ps : List Peer) (p : Peer) :
    appendPeer (appendPeer ps p) p = appendPeer ps p ∧
    ((ps.map Peer.id).Nodup →
      ((appendPeer ps p).map Peer.id).count p.id = 1 ∧
      ((appendPeer ps p).map Peer.id).Nodup) := by
  cases hfind : ps.find? (fun q => q.id == p.id) with
  | none =>
    have habs : ∀ q ∈ ps, q.id ≠ p.id := by
      intro q hq
      have := List.find?_eq_none.mp hfind q hq
      simpa using this
    have hnotmem : p.id ∉ ps.map Peer.id := by
      intro hmem
      rcases List.mem_map.mp hmem with ⟨q, hq, hqid⟩
      exact habs q hq hqid
    have happ : appendPeer ps p = ps ++ [p] := by
      unfold appendPeer
      rw [hfind]
    have hfind2 : ∃ q, (ps ++ [p]).find? (fun q => q.id == p.id) = some q := by
      cases h2 : (ps ++ [p]).find? (fun q => q.id == p.id) with
      | none =>
        have := List.find?_eq_none.mp h2 p (by simp)
        simp at this
      | some q => exact ⟨q, rfl⟩
    constructor
    · rcases hfind2 with ⟨q, hq⟩
      rw [happ]
      unfold appendPeer
      rw [hq]
    · intro _
      rw [happ]
      constructor
      · simp [List.count_append]
        exact List.count_eq_zero.mpr hnotmem
      · rename_i hnd
        rw [List.map_append, List.nodup_append]
        refine ⟨hnd, by simp, ?_⟩
        intro a ha hap
        simp at hap
        exact hnotmem (hap ▸ ha)
  | some q =>
    have happ : appendPeer ps p = ps := by
      unfold appendPeer
      rw [hfind]
    have hqmem : q ∈ ps := List.mem_of_find?_eq_some hfind
    have hqid : q.id = p.id := by
      have := List.find?_some hfind
      simpa using this
    constructor
    · rw [happ, happ]
    · intro hnd
      rw [happ]
      refine ⟨?_, hnd⟩
      have hmem : p.id ∈ ps.map Peer.id := List.mem_map.mpr ⟨q, hqmem, hqid⟩
      exact List.count_eq_one_of_mem hnd hmem

/-- Witness for C6 at a concrete roster. -/
theorem C6_appendPeer_idempotent_witness :
    appendPeer (appendPeer [] ⟨"a", "A"⟩) ⟨"a", "A"⟩ = appendPeer [] ⟨"a", "A"⟩ ∧
    ((appendPeer [] ⟨"a", "A"⟩).map Peer.id).count "a" = 1 ∧
    ((appendPeer [] ⟨"a", "A"⟩).map Peer.id).Nodup :=
  ⟨(C6_appendPeer_idempotent [] ⟨"a", "A"⟩).1,
   (C6_appendPeer_idempotent [] ⟨"a", "A"⟩).2 (by decide)⟩

/-! ## C8 — sendFile fails fast iff the data channel is missing or not
open -/

/-- C8: `sendFile` fails synchronously with the `Data channel not ready`
error if and only if the data channel for the target peer is absent or its
`readyState` is not `open`; when the channel is open it emits the message
sequence with no error (webrtc.ts `sendFile` lines 437–441; part_000
`sendFile` lines 185–189 has the same guard).  In the error case the
result carries no messages: the guard precedes every `send`. -/
theorem C8_sendFile_fails_iff_channel_not_open
    (dataChannels : List (String × String)) (peerId : String)
    (chunkSize : Nat) (file : List Nat) (transferId name mimeType : String) :
    (sendFileGuardedW dataChannels peerId chunkSize file transferId name mimeType
        = Except.error "Data channel not ready" ↔
      dataChannels.lookup peerId ≠ some "open") ∧
    (dataChannels.lookup peerId = some "open" →
      sendFileGuardedW dataChannels peerId chunkSize file transferId name mimeType
        = Except.ok (sendFileW chunkSize file transferId name mimeType)) := by
  unfold sendFileGuardedW
  cases hl : dataChannels.lookup peerId with
  | none => simp
  | some st =>
    by_cases hst : st = "open"
    · subst hst
      simp
    · simp [hst]

/-- Witness for C8 at a concrete channel table. -/
theorem C8_sendFile_fails_iff_channel_not_open_witness :
    (([("b", "open")] : List (String × String)).lookup "b" = some "open") ∧
    sendFileGuardedW [("b", "open")] "b" 16384 [7] "t" "f" "bin"
      = Except.ok (sendFileW 16384 [7] "t" "f" "bin") :=
  ⟨by decide,
   (C8_sendFile_fails_iff_channel_not_open [("b", "open")] "b" 16384 [7]
      "t" "f" "bin").2 (by decide)⟩

/-! ## C2 — chunked send / reassembly round-trip -/

/-- The bytes of the chunks emitted by the webrtc.ts read loop, from any
offset, concatenate to the remaining file contents. -/
theorem sendFileChunksGoW_join (chunkSize : Nat) (file : List Nat)
    (hC : 0 < chunkSize) :
    ∀ fuel offset, offset ≤ file.length → file.length - offset < fuel →
      (sendFileChunksGoW chunkSize file offset fuel).flatten = file.drop offset := by
  intro fuel
  induction fuel with
  | zero => intro offset h1 h2; omega
  | succ n ih =>
    intro offset h1 h2
    simp only [sendFileChunksGoW]
    have hlen : ((file.drop offset).take chunkSize).length
        = min chunkSize (file.length - offset) := by
      simp
    by_cases hcond :
        offset + ((file.drop offset).take chunkSize).length < file.length
    · rw [if_pos hcond]
      have hcl : ((file.drop offset).take chunkSize).length = chunkSize := by
        omega
      rw [List.flatten_cons,
        ih (offset + ((file.drop offset).take chunkSize).length) (by omega)
          (by omega), hcl]
      exact List.drop_take_append_drop file offset chunkSize
    · rw [if_neg hcond]
      have hle : (file.drop offset).length ≤ chunkSize := by
        simp only [List.length_drop]
        omega
      simp [List.take_of_length_le hle]

/-- The receiver's chunk accumulator after a run of `file-chunk` messages
appends the chunks in arrival order. -/
theorem recvStepW_foldl_chunks (transferId : String) :
    ∀ (cs : List (List Nat)) (s : RecvState),
      (cs.map (WMsg.fileChunk transferId)).foldl recvStepW s
        = { s with chunks := s.chunks ++ cs } := by
  intro cs
  induction cs with
  | nil => intro s; simp
  | cons c rest ih =>
    intro s
    simp only [List.map_cons, List.foldl_cons, recvStepW]
    rw [ih]
    simp

/-- The copy loop of `handleFileEnd` computes the concatenation of the
accumulated chunks. -/
theorem handleFileEndW_eq_flatten (chunks : List (List Nat)) :
    handleFileEndW chunks = chunks.flatten := by
  suffices h : ∀ (cs : List (List Nat)) (acc : List Nat),
      cs.foldl (fun combined chunk => combined ++ chunk) acc = acc ++ cs.flatten by
    simpa [handleFileEndW] using h chunks []
  intro cs
  induction cs with
  | nil => intro acc; simp
  | cons c rest ih => intro acc; simp [ih, List.append_assoc]

/-- C2: for every file sent in chunks over an ordered, lossless channel,
the webrtc.ts receiver's reassembly (accumulating each `file-chunk`'s
bytes in arrival order and concatenating them on `file-end`) reproduces
the original byte sequence exactly — in particular for every size
`S ∈ {0, 1, C, C+1, 10·C}` (webrtc.ts `sendFile` lines 437–492 and
`handleFileEnd` lines 404–435). -/
theorem C2_round_trip (chunkSize : Nat) (file : List Nat)
    (transferId name mimeType : String) (hC : 0 < chunkSize) :
    receiveFileW (sendFileW chunkSize file transferId name mimeType)
      = some file := by
  have hjoin : (sendFileChunksW chunkSize file).flatten = file := by
    have := sendFileChunksGoW_join chunkSize file hC (file.length + 1) 0
      (Nat.zero_le _) (by omega)
    simpa [sendFileChunksW] using this
  unfold receiveFileW sendFileW
  simp only [List.foldl_cons, List.foldl_append, List.foldl_nil, recvStepW,
    recvStepW_foldl_chunks]
  simp [handleFileEndW_eq_flatten, hjoin]

/-- Witness for C2 at a concrete chunk size and file. -/
theorem C2_round_trip_witness :
    0 < 16384 ∧
    receiveFileW (sendFileW 16384 [3, 1, 4, 1, 5] "t" "f" "bin")
      = some [3, 1, 4, 1, 5] :=
  ⟨by decide, C2_round_trip 16384 [3, 1, 4, 1, 5] "t" "f" "bin" (by decide)⟩

/-! ## C1 — at-most-once delivery per reading peer -/

/-- In a prefix-chain of logs (append-only growth), the first log is a
prefix of the last. -/
theorem chain_prefix_head_last :
    ∀ (l : List (List SignalMessage)) (a : List SignalMessage),
      List.Chain' (· <+: ·) (a :: l) →
      a <+: (((a :: l).getLast?).getD []) := by
  intro l
  induction l with
  | nil => intro a _; simp
  | cons b t ih =>
    intro a h
    rw [List.chain'_cons] at h
    rw [List.getLast?_cons_cons]
    exact h.1.trans (ih b h.2)

/-- Across a sequence of polls of the cursor relay over an append-only
log, the concatenation of all dispatch lists is exactly the final log
past the initial cursor, filtered on `from ≠ localId` — each log entry is
dispatched at most once. -/
theorem runPollsW_flatten (localId : String) :
    ∀ (logs : List (List SignalMessage)) (c : Nat),
      List.Chain' (· <+: ·) logs →
      (∀ l₀, logs.head? = some l₀ → c ≤ l₀.length) →
      (runPollsW localId logs c).flatten
        = (((logs.getLast?).getD []).drop c).filter
            (fun m => m.from_ != localId) := by
  intro logs
  induction logs with
  | nil => intro c _ _; simp [runPollsW]
  | cons log rest ih =>
    intro c hchain hc
    have hclog : c ≤ log.length := hc log rfl
    cases rest with
    | nil => simp [runPollsW, pollForMessagesW]
    | cons r rs =>
      rw [List.chain'_cons] at hchain
      have hlenr : log.length ≤ r.length := hchain.1.length_le
      have hrec := ih log.length hchain.2 (by intro l₀ h₀; cases h₀; exact hlenr)
      have hpre : log <+: (((r :: rs).getLast?).getD []) :=
        hchain.1.trans (chain_prefix_head_last rs r hchain.2)
      obtain ⟨t, ht⟩ := hpre
      have hstep : runPollsW localId (log :: r :: rs) c
          = (pollForMessagesW localId log c).1 ::
              runPollsW localId (r :: rs) log.length := rfl
      rw [hstep, List.flatten_cons, hrec, List.getLast?_cons_cons, ← ht,
        List.drop_left, List.drop_append_of_le_length hclog,
        List.filter_append]
      rfl

/-- C1: at-most-once delivery per reading peer.  For the cursor relay
(webrtc.ts `pollForMessages`): across any sequence of polls over an
append-only log, the dispatched messages, concatenated, are exactly the
final log filtered on `from ≠ localId` — so every log entry is dispatched
at most once, and once the cursor has advanced past a message it is never
dispatched again (conjuncts 1–2).  For the processedBy relay (part_000
`startSignalingPolling`): a message already carrying the local id in
`processedBy` is never dispatched, and after a poll has marked and saved
the log, any later poll over that saved log (plus newly appended messages)
dispatches only the newly appended ones (conjuncts 3–4). -/
theorem C1_at_most_once_delivery :
    (∀ (localId : String) (logs : List (List SignalMessage)),
      logs.Chain' (· <+: ·) →
      (runPollsW localId logs 0).flatten
        = ((logs.getLast?).getD []).filter (fun m => m.from_ != localId)) ∧
    (∀ (localId : String) (logs : List (List SignalMessage))
        (m : SignalMessage),
      logs.Chain' (· <+: ·) →
      ((runPollsW localId logs 0).flatten).count m
        ≤ ((logs.getLast?).getD []).count m) ∧
    (∀ (localId : String) (msgs : List SignalMessage) (m : SignalMessage),
      localId ∈ m.processedBy → m ∉ (pollPB localId msgs).1) ∧
    (∀ (localId : String) (msgs extra : List SignalMessage)
        (m : SignalMessage),
      m ∈ (pollPB localId ((pollPB localId msgs).2 ++ extra)).1 →
        m ∈ extra) := by
  have hflat : ∀ (localId : String) (logs : List (List SignalMessage)),
      logs.Chain' (· <+: ·) →
      (runPollsW localId logs 0).flatten
        = ((logs.getLast?).getD []).filter (fun m => m.from_ != localId) := by
    intro localId logs hchain
    have := runPollsW_flatten localId logs 0 hchain (by intro l₀ _; omega)
    simpa using this
  refine ⟨hflat, ?_, ?_, ?_⟩
  · intro localId logs m hchain
    rw [hflat localId logs hchain]
    exact (List.filter_sublist _).count_le m
  · intro localId msgs m hproc hmem
    have hf := (List.mem_filter.mp hmem).2
    simp only [unreadFilter, Bool.and_eq_true, Bool.not_eq_true'] at hf
    have : m.processedBy.contains localId = true :=
      List.elem_iff.mpr hproc
    rw [this] at hf
    exact absurd hf.2 (by simp)
  · intro localId msgs extra m hm
    have hmem := (List.mem_filter.mp hm).1
    have hf := (List.mem_filter.mp hm).2
    rcases List.mem_append.mp hmem with hleft | hright
    · exfalso
      rcases List.mem_map.mp hleft with ⟨m₀, _, heq⟩
      by_cases h0 : unreadFilter localId m₀
      · rw [if_pos h0] at heq
        have hproc : localId ∈ m.processedBy := by
          rw [← heq]
          simp [markProcessed]
        have hcontains : m.processedBy.contains localId = true :=
          List.elem_iff.mpr hproc
        simp only [unreadFilter, Bool.and_eq_true, Bool.not_eq_true'] at hf
        rw [hcontains] at hf
        exact absurd hf.2 (by simp)
      · rw [if_neg h0] at heq
        rw [heq] at h0
        exact h0 hf
    · exact hright

/-- Witness for C1 at a concrete append-only pair of polled logs. -/
theorem C1_at_most_once_delivery_witness :
    ([[joinMessageW "a" "A" 0], [joinMessageW "a" "A" 0, joinMessageW "b" "B" 1]]
        : List (List SignalMessage)).Chain' (· <+: ·) ∧
    (runPollsW "a"
        [[joinMessageW "a" "A" 0], [joinMessageW "a" "A" 0, joinMessageW "b" "B" 1]]
        0).flatten
      = ([joinMessageW "a" "A" 0, joinMessageW "b" "B" 1].filter
          (fun m => m.from_ != "a")) := by
  have hchain : ([[joinMessageW "a" "A" 0],
      [joinMessageW "a" "A" 0, joinMessageW "b" "B" 1]]
        : List (List SignalMessage)).Chain' (· <+: ·) := by
    rw [List.chain'_pair]
    exact ⟨[joinMessageW "b" "B" 1], rfl⟩
  exact ⟨hchain, C1_at_most_once_delivery.1 "a" _ hchain⟩

/-! ## C3 — which messages a relay poll dispatches -/

/-- Counterexample to C3: the webrtc.ts cursor relay dispatches a message
to `handleSignalMessage` even when it is addressed to a third peer.  Here
the local peer is `"c"`, and a `leave` from `"A"` addressed `to: "B"` is
dispatched by `pollForMessages` although it fails the claimed filter
(`to == localId ∨ to == BROADCAST`): webrtc.ts lines 189–193 check only
`from !== localId`. -/
theorem C3_counterexample_dispatch_to_third_party :
    (pollForMessagesW "c"
        [{ type := "leave", from_ := "A", to_ := some "B", fromName := none,
           timestamp := 0, processedBy := [] }] 0).1
      = [{ type := "leave", from_ := "A", to_ := some "B", fromName := none,
           timestamp := 0, processedBy := [] }] ∧
    unreadFilter "c"
        { type := "leave", from_ := "A", to_ := some "B", fromName := none,
          timestamp := 0, processedBy := [] } = false := by
  decide

/-- C3 as amended: the part_000 relay poll dispatches exactly the log
messages satisfying `(to == localId ∨ to == BROADCAST) ∧ from ≠ localId ∧
localId ∉ processedBy`; the webrtc.ts cursor relay poll instead dispatches
exactly the messages past its cursor with `from ≠ localId`, with no `to`
filter at the poll level (per-type `to` checks live inside
`handleSignalMessage`). -/
theorem C3_poll_dispatch_characterization :
    (∀ (localId : String) (msgs : List SignalMessage) (m : SignalMessage),
      m ∈ (pollPB localId msgs).1 ↔
        m ∈ msgs ∧ (m.to_ = some localId ∨ m.to_ = some "broadcast") ∧
          m.from_ ≠ localId ∧ localId ∉ m.processedBy) ∧
    (∀ (localId : String) (msgs : List SignalMessage) (c : Nat)
        (m : SignalMessage),
      m ∈ (pollForMessagesW localId msgs c).1 ↔
        m ∈ msgs.drop c ∧ m.from_ ≠ localId) := by
  constructor
  · intro localId msgs m
    simp only [pollPB, List.mem_filter, unreadFilter, Bool.and_eq_true,
      Bool.or_eq_true, beq_iff_eq, bne_iff_ne, Bool.not_eq_true']
    constructor
    · rintro ⟨hmem, ⟨hto, hfrom⟩, hproc⟩
      refine ⟨hmem, hto, hfrom, ?_⟩
      intro hin
      have hc : m.processedBy.contains localId = true := List.elem_iff.mpr hin
      rw [hc] at hproc
      cases hproc
    · rintro ⟨hmem, hto, hfrom, hproc⟩
      refine ⟨hmem, ⟨hto, hfrom⟩, ?_⟩
      cases hc : m.processedBy.contains localId
      · rfl
      · have hin : localId ∈ m.processedBy := List.elem_iff.mp hc
        exact absurd hin hproc
  · intro localId msgs c m
    simp [pollForMessagesW, List.mem_filter]

/-- Witness for C3 as amended, at a concrete log. -/
theorem C3_poll_dispatch_characterization_witness :
    peerJoinedMessagePB "b" "B" 1 ∈
        (pollPB "a" [peerJoinedMessagePB "b" "B" 1]).1 ↔
      peerJoinedMessagePB "b" "B" 1 ∈ [peerJoinedMessagePB "b" "B" 1] ∧
        ((peerJoinedMessagePB "b" "B" 1).to_ = some "a" ∨
          (peerJoinedMessagePB "b" "B" 1).to_ = some "broadcast") ∧
        (peerJoinedMessagePB "b" "B" 1).from_ ≠ "a" ∧
        "a" ∉ (peerJoinedMessagePB "b" "B" 1).processedBy :=
  C3_poll_dispatch_characterization.1 "a" [peerJoinedMessagePB "b" "B" 1]
    (peerJoinedMessagePB "b" "B" 1)

/-! ## C9 — disconnect handling -/

/-- Counterexample to C9: after the transport for peer `"A"` reports two
terminal events (for example `disconnected` then `failed`, both routed to
`handlePeerLeave` by webrtc.ts lines 268–271), the peer-disconnected
notification for `"A"` has fired twice, not exactly once: the handler
fires the callback unconditionally even when the session was already
removed. -/
theorem C9_counterexample_disconnect_fires_twice :
    ((processTerminalEventsW
        { peers := ["A"], dataChannels := ["A"], disconnectedFired := [] }
        ["A", "A"]).disconnectedFired).count "A" = 2 := by
  decide

/-- C9 as amended: a terminal event for a peer removes that peer's
connection and data-channel entries (and removal is permanent — no later
terminal event resurrects an entry), and the peer-disconnected
notification fires once per terminal event handled, i.e. the number of
notifications equals the number of terminal events naming the peer, not
one per session. -/
theorem C9_disconnect_removes_and_fires_per_event :
    (∀ (s : PState) (p : String),
      p ∉ (handlePeerLeaveW s p).peers ∧
      p ∉ (handlePeerLeaveW s p).dataChannels ∧
      (handlePeerLeaveW s p).disconnectedFired = s.disconnectedFired ++ [p]) ∧
    (∀ (s : PState) (events : List String),
      (processTerminalEventsW s events).disconnectedFired
        = s.disconnectedFired ++ events) ∧
    (∀ (s : PState) (events : List String) (q : String),
      q ∈ (processTerminalEventsW s events).peers → q ∈ s.peers) := by
  refine ⟨?_, ?_, ?_⟩
  · intro s p
    refine ⟨?_, ?_, rfl⟩ <;>
      simp [handlePeerLeaveW, List.mem_filter]
  · intro s events
    induction events generalizing s with
    | nil => simp [processTerminalEventsW]
    | cons e rest ih =>
      have : processTerminalEventsW s (e :: rest)
          = processTerminalEventsW (handlePeerLeaveW s e) rest := rfl
      rw [this, ih]
      simp [handlePeerLeaveW]
  · intro s events
    induction events generalizing s with
    | nil => intro q h; simpa [processTerminalEventsW] using h
    | cons e rest ih =>
      intro q h
      have hstep : processTerminalEventsW s (e :: rest)
          = processTerminalEventsW (handlePeerLeaveW s e) rest := rfl
      rw [hstep] at h
      have := ih (handlePeerLeaveW s e) q h
      simp only [handlePeerLeaveW, List.mem_filter] at this
      exact this.1

/-- Witness for C9 as amended, at a concrete state. -/
theorem C9_disconnect_removes_and_fires_per_event_witness :
    "B" ∈ (processTerminalEventsW
        { peers := ["A", "B"], dataChannels := [], disconnectedFired := [] }
        ["A"]).peers ∧
    "B" ∈ ["A", "B"] :=
  ⟨by decide,
   C9_disconnect_removes_and_fires_per_event.2.2
     { peers := ["A", "B"], dataChannels := [], disconnectedFired := [] }
     ["A"] "B" (by decide)⟩

/-! ## C10 — joining a nonexistent room -/

/-- Counterexample to C10: part_000 `joinRoom` (lines 270–298, also cited
by the claim) does not create a room record when none exists — the
`if (roomData)` branch is skipped, nothing is written, and the store still
has no record for the room afterwards. -/
theorem C10_counterexample_joinRoomPB_creates_nothing :
    storeGet (joinRoomPB storeEmpty "r1" "me" "Me" 5) "r1" = none := by
  rfl

/-- C10 as amended: neither variant's `joinRoom` ever reports a NotFound
outcome.  The webrtc.ts variant, given a store with no record for the
room, creates a fresh record with the joining peer as creator, adds the
joiner to the roster, and appends its `join` message.  The part_000
variant also returns successfully but writes nothing at all when the
record is missing: it merely starts polling. -/
theorem C10_joinRoom_missing_room (store : Store)
    (roomId localId localName : String) (now : Nat)
    (h : storeGet store (roomKeyW roomId) = none) :
    (∃ rd, storeGet (joinRoomW store roomId localId localName now)
        (roomKeyW roomId) = some rd ∧
      rd.creator = localId ∧ rd.peers.map Peer.id = [localId] ∧
      rd.messages = [joinMessageW localId localName now]) ∧
    (∀ (storeP : Store) (rid lid lnm : String) (t : Nat),
      storeGet storeP rid = none → joinRoomPB storeP rid lid lnm t = storeP) := by
  constructor
  · have hget : storeGet (joinRoomW store roomId localId localName now)
        (roomKeyW roomId) = some
        { id := roomId, creator := localId, creatorName := localName,
          peers := [⟨localId, localName⟩],
          messages := [joinMessageW localId localName now], created := now } := by
      simp only [joinRoomW, h, List.find?_nil, sendSignalMessageW]
      simp [storeGet, storeSet]
    exact ⟨_, hget, rfl, rfl, rfl⟩
  · intro storeP rid lid lnm t h'
    unfold joinRoomPB
    rw [h']

/-- Witness for C10 as amended, joining a nonexistent room on an empty
store. -/
theorem C10_joinRoom_missing_room_witness :
    storeGet storeEmpty (roomKeyW "r1") = none ∧
    (∃ rd, storeGet (joinRoomW storeEmpty "r1" "me" "Me" 5)
        (roomKeyW "r1") = some rd ∧
      rd.creator = "me" ∧ rd.peers.map Peer.id = ["me"] ∧
      rd.messages = [joinMessageW "me" "Me" 5]) :=
  ⟨rfl, (C10_joinRoom_missing_room storeEmpty "r1" "me" "Me" 5 rfl).1⟩

/-! ## C7 — offerer/answerer role assignment -/

/-- C7: role assignment in webrtc.ts.  (1) `joinRoom` only appends the
local peer's `join` message: it creates no session and emits no offer.
(2) A peer handling another peer's `join` with no session for it creates
the session as offerer and emits the offer.  (3) Every session created by
handling a message is either an offerer session created by a `join` or an
answerer (non-offerer) session created by an `offer` — the reverse
assignment never occurs.  (4) Every message newly emitted by the handler
that is an `offer` was emitted while handling a `join`; the joining side
itself never self-initiates an offer (webrtc.ts `handleSignalMessage`
lines 201–236, `createPeerConnection` lines 238–300, `joinRoom` lines
105–148). -/
theorem C7_role_assignment :
    (∀ (localId localName : String) (now : Nat) (s : WState),
      (joinRoomStepW localId localName now s).sessions = s.sessions ∧
      (joinRoomStepW localId localName now s).outbox
        = s.outbox ++ [joinMessageW localId localName now] ∧
      (joinMessageW localId localName now).type = "join") ∧
    (∀ (localId localName : String) (now : Nat) (s : WState)
        (m : SignalMessage),
      m.type = "join" →
      (∀ e ∈ s.sessions, e.id ≠ m.from_) →
      (handleSignalMessageW localId localName now s m).sessions
          = s.sessions ++ [{ id := m.from_, offerer := true }] ∧
      (handleSignalMessageW localId localName now s m).outbox
          = s.outbox ++ [offerMessageW localId localName m.from_ now]) ∧
    (∀ (localId localName : String) (now : Nat) (s : WState)
        (m : SignalMessage) (e : PeerEntry),
      e ∈ (handleSignalMessageW localId localName now s m).sessions →
      e ∉ s.sessions →
      (m.type = "join" ∧ e = { id := m.from_, offerer := true }) ∨
      (m.type = "offer" ∧ e = { id := m.from_, offerer := false })) ∧
    (∀ (localId localName : String) (now : Nat) (s : WState)
        (m m' : SignalMessage),
      m' ∈ (handleSignalMessageW localId localName now s m).outbox →
      m' ∉ s.outbox →
      m'.type = "offer" →
      m.type = "join") := by
  refine ⟨?_, ?_, ?_, ?_⟩
  · intro localId localName now s
    exact ⟨rfl, rfl, rfl⟩
  · intro localId localName now s m hjoin habs
    have hany : s.sessions.any (fun e => e.id == m.from_) = false := by
      rw [List.any_eq_false]
      intro e he
      simpa using habs e he
    constructor <;> simp [handleSignalMessageW, hjoin, hany]
  · intro localId localName now s m e hmem hnot
    by_cases hj : m.type = "join"
    · cases hany : s.sessions.any (fun e => e.id == m.from_) with
      | true =>
        have heq : (handleSignalMessageW localId localName now s m).sessions
            = s.sessions := by
          simp [handleSignalMessageW, hj, hany]
        rw [heq] at hmem
        exact absurd hmem hnot
      | false =>
        have heq : (handleSignalMessageW localId localName now s m).sessions
            = s.sessions ++ [{ id := m.from_, offerer := true }] := by
          simp [handleSignalMessageW, hj, hany]
        rw [heq] at hmem
        rcases List.mem_append.mp hmem with h | h
        · exact absurd h hnot
        · simp only [List.mem_singleton] at h
          exact Or.inl ⟨hj, h⟩
    · by_cases ho : m.type = "offer"
      · by_cases hto : m.to_ = some localId ∨ m.to_ = none
        · cases hany : s.sessions.any (fun e => e.id == m.from_) with
          | true =>
            have heq : (handleSignalMessageW localId localName now s m).sessions
                = s.sessions := by
              rcases hto with hto | hto <;> simp [handleSignalMessageW, hj, ho, hto, hany]
            rw [heq] at hmem
            exact absurd hmem hnot
          | false =>
            have heq : (handleSignalMessageW localId localName now s m).sessions
                = s.sessions ++ [{ id := m.from_, offerer := false }] := by
              rcases hto with hto | hto <;> simp [handleSignalMessageW, hj, ho, hto, hany]
            rw [heq] at hmem
            rcases List.mem_append.mp hmem with h | h
            · exact absurd h hnot
            · simp only [List.mem_singleton] at h
              exact Or.inr ⟨ho, h⟩
        · push_neg at hto
          have heq : (handleSignalMessageW localId localName now s m).sessions
              = s.sessions := by
            simp [handleSignalMessageW, hj, ho, hto.1, hto.2]
          rw [heq] at hmem
          exact absurd hmem hnot
      · by_cases hl : m.type = "leave"
        · have heq : (handleSignalMessageW localId localName now s m).sessions
              = s.sessions.filter (fun e => e.id != m.from_) := by
            simp [handleSignalMessageW, hj, ho, hl]
          rw [heq] at hmem
          exact absurd (List.mem_filter.mp hmem).1 hnot
        · have heq : (handleSignalMessageW localId localName now s m).sessions
              = s.sessions := by
            simp [handleSignalMessageW, hj, ho, hl]
          rw [heq] at hmem
          exact absurd hmem hnot
  · intro localId localName now s m m' hmem hnot htype
    by_cases hj : m.type = "join"
    · exact hj
    · exfalso
      by_cases ho : m.type = "offer"
      · by_cases hto : m.to_ = some localId ∨ m.to_ = none
        · have heq : (handleSignalMessageW localId localName now s m).outbox
              = s.outbox ++ [answerMessageW localId localName m.from_ now] := by
            cases hany : s.sessions.any (fun e => e.id == m.from_) <;>
              rcases hto with hto | hto <;>
                simp [handleSignalMessageW, hj, ho, hto, hany]
          rw [heq] at hmem
          rcases List.mem_append.mp hmem with h | h
          · exact hnot h
          · simp only [List.mem_singleton] at h
            rw [h] at htype
            simp [answerMessageW] at htype
        · push_neg at hto
          have heq : (handleSignalMessageW localId localName now s m).outbox
              = s.outbox := by
            simp [handleSignalMessageW, hj, ho, hto.1, hto.2]
          rw [heq] at hmem
          exact hnot hmem
      · by_cases hl : m.type = "leave"
        · have heq : (handleSignalMessageW localId localName now s m).outbox
              = s.outbox := by
            simp [handleSignalMessageW, hj, ho, hl]
          rw [heq] at hmem
          exact hnot hmem
        · have heq : (handleSignalMessageW localId localName now s m).outbox
              = s.outbox := by
            simp [handleSignalMessageW, hj, ho, hl]
          rw [heq] at hmem
          exact hnot hmem

/-- Witness for C7 at a concrete state: an empty-session peer handling a
`join` from `"b"` becomes offerer toward `"b"` and emits the offer. -/
theorem C7_role_assignment_witness :
    (joinMessageW "b" "B" 1).type = "join" ∧
    (handleSignalMessageW "a" "A" 2 { sessions := [], outbox := [] }
        (joinMessageW "b" "B" 1)).sessions
      = [{ id := "b", offerer := true }] ∧
    (handleSignalMessageW "a" "A" 2 { sessions := [], outbox := [] }
        (joinMessageW "b" "B" 1)).outbox
      = [offerMessageW "a" "A" "b" 2] :=
  ⟨rfl,
   (C7_role_assignment.2.1 "a" "A" 2 { sessions := [], outbox := [] }
      (joinMessageW "b" "B" 1) rfl (by simp)).1,
   (C7_role_assignment.2.1 "a" "A" 2 { sessions := [], outbox := [] }
      (joinMessageW "b" "B" 1) rfl (by simp)).2⟩

/-! ## C4 — the message sequence emitted by sendFile -/

/-- The slice bounds of part_000's chunk `i` reduce to drop-then-take. -/
theorem chunkDataPB_eq (chunkSize : Nat) (file : List Nat) (i : Nat) :
    chunkDataPB chunkSize file i
      = (file.drop (i * chunkSize)).take chunkSize := by
  simp only [chunkDataPB]
  generalize i * chunkSize = start
  rw [List.take_eq_take]
  simp only [List.length_drop]
  omega

/-- The first `n` part_000 chunks concatenate to the first `n · C` bytes
of the file. -/
theorem chunkDataPB_flatten_range (chunkSize : Nat) (file : List Nat) :
    ∀ n, ((List.range n).map
        (fun i => (file.drop (i * chunkSize)).take chunkSize)).flatten
      = file.take (n * chunkSize) := by
  intro n
  induction n with
  | zero => simp
  | succ k ih =>
    rw [List.range_succ, List.map_append, List.flatten_append, ih]
    simp only [List.map_cons, List.map_nil, List.flatten_cons,
      List.flatten_nil, List.append_nil]
    rw [← List.take_add]
    congr 1
    ring

/-- `Math.ceil(S / C) · C` covers the whole file. -/
theorem totalChunksPB_mul_ge (chunkSize size : Nat) (hC : 0 < chunkSize) :
    size ≤ totalChunksPB chunkSize size * chunkSize := by
  unfold totalChunksPB
  have h := Nat.div_add_mod (size + chunkSize - 1) chunkSize
  have hm : (size + chunkSize - 1) % chunkSize < chunkSize :=
    Nat.mod_lt _ hC
  rw [Nat.mul_comm]
  generalize hx :
    chunkSize * ((size + chunkSize - 1) / chunkSize) = x at h ⊢
  omega

/-- When the chunk size does not divide the file size, the ceiling is the
floor plus one. -/
theorem totalChunksPB_of_mod_ne (chunkSize size : Nat) (hC : 0 < chunkSize)
    (h : size % chunkSize ≠ 0) :
    totalChunksPB chunkSize size = size / chunkSize + 1 := by
  unfold totalChunksPB
  have hd := Nat.div_add_mod size chunkSize
  have hm : size % chunkSize < chunkSize := Nat.mod_lt _ hC
  have h1 : size + chunkSize - 1
      = chunkSize * (size / chunkSize + 1) + (size % chunkSize - 1) := by
    have hms : chunkSize * (size / chunkSize + 1)
        = chunkSize * (size / chunkSize) + chunkSize := by ring
    rw [hms]
    generalize hx : chunkSize * (size / chunkSize) = x at hd ⊢
    omega
  rw [h1, Nat.mul_add_div hC]
  have hz : (size % chunkSize - 1) / chunkSize = 0 :=
    Nat.div_eq_of_lt (by omega)
  rw [hz]

/-- C4 as amended.  For the part_000 `sendFile` (lines 185–244) the claim
holds in full: one `file-info` first, then exactly `ceil(S/C)` chunk
messages whose `chunkIndex` counts up from 0, whose byte payloads
concatenate to the file (so their lengths sum to S, the last being
`S mod C` when C does not divide S), then one completion message; for
S = 0 there are no chunks, and for S = 40000 with C = 16384 there are
three chunks with the last of 7232 bytes.  The webrtc.ts `sendFile`
(lines 437–492), by contrast, numbers no chunks and, for S = 0, emits one
empty `file-chunk` between `file-start` and `file-end` instead of none
(final conjunct). -/
theorem C4_sendFile_message_sequence (chunkSize : Nat) (file : List Nat)
    (transferId name mimeType : String) (hC : 0 < chunkSize) :
    (sendFilePB chunkSize file transferId name).head?
        = some (XferMsg.fileInfo transferId name file.length) ∧
    (sendFilePB chunkSize file transferId name).getLast?
        = some (XferMsg.transferComplete transferId) ∧
    (sendFilePB chunkSize file transferId name).countP isChunkPB
        = totalChunksPB chunkSize file.length ∧
    (sendFilePB chunkSize file transferId name).filterMap chunkIndexOfPB
        = List.range (totalChunksPB chunkSize file.length) ∧
    ((sendFilePB chunkSize file transferId name).filterMap
        chunkBytesOfPB).flatten = file ∧
    (file.length % chunkSize ≠ 0 →
      (((sendFilePB chunkSize file transferId name).filterMap
          chunkBytesOfPB).map List.length).getLast?
        = some (file.length % chunkSize)) ∧
    (file.length = 0 →
      sendFilePB chunkSize file transferId name
        = [XferMsg.fileInfo transferId name 0,
           XferMsg.transferComplete transferId]) ∧
    (file.length = 40000 → chunkSize = 16384 →
      (sendFilePB chunkSize file transferId name).countP isChunkPB = 3 ∧
      (((sendFilePB chunkSize file transferId name).filterMap
          chunkBytesOfPB).map List.length).getLast? = some 7232) ∧
    sendFileW chunkSize [] transferId name mimeType
        = [WMsg.fileStart transferId name 0 mimeType,
           WMsg.fileChunk transferId [], WMsg.fileEnd transferId] := by
  have hcount : (sendFilePB chunkSize file transferId name).countP isChunkPB
      = totalChunksPB chunkSize file.length := by
    simp only [sendFilePB, List.cons_append, List.countP_cons,
      List.countP_append, List.countP_map, isChunkPB]
    have h3 := (List.countP_eq_length
        (l := List.range (totalChunksPB chunkSize file.length))
        (p := isChunkPB ∘ fun i => XferMsg.fileChunk transferId i
          (totalChunksPB chunkSize file.length)
          (chunkDataPB chunkSize file i))).mpr (fun a _ => rfl)
    rw [h3, List.length_range]
    simp
  have hdatas : (sendFilePB chunkSize file transferId name).filterMap
      chunkBytesOfPB
      = (List.range (totalChunksPB chunkSize file.length)).map
          (chunkDataPB chunkSize file) := by
    simp only [sendFilePB, List.cons_append, List.filterMap_cons,
      List.filterMap_append, List.filterMap_map, chunkBytesOfPB]
    have h2 : (chunkBytesOfPB ∘ fun i => XferMsg.fileChunk transferId i
        (totalChunksPB chunkSize file.length) (chunkDataPB chunkSize file i))
        = some ∘ chunkDataPB chunkSize file := by
      funext i
      rfl
    rw [h2, List.filterMap_eq_map]
    simp
  have hflat : ((sendFilePB chunkSize file transferId name).filterMap
      chunkBytesOfPB).flatten = file := by
    rw [hdatas]
    have hpt : (List.range (totalChunksPB chunkSize file.length)).map
        (chunkDataPB chunkSize file)
        = (List.range (totalChunksPB chunkSize file.length)).map
            (fun i => (file.drop (i * chunkSize)).take chunkSize) := by
      apply List.map_congr_left
      intro a _
      exact chunkDataPB_eq chunkSize file a
    rw [hpt, chunkDataPB_flatten_range]
    exact List.take_of_length_le (totalChunksPB_mul_ge chunkSize file.length hC)
  have hlastlen : file.length % chunkSize ≠ 0 →
      (((sendFilePB chunkSize file transferId name).filterMap
          chunkBytesOfPB).map List.length).getLast?
        = some (file.length % chunkSize) := by
    intro hmod
    rw [hdatas, List.map_map]
    rw [totalChunksPB_of_mod_ne chunkSize file.length hC hmod,
      List.range_succ, List.map_append]
    simp only [List.map_cons, List.map_nil]
    rw [List.getLast?_concat]
    have hd := Nat.div_add_mod file.length chunkSize
    have hm : file.length % chunkSize < chunkSize := Nat.mod_lt _ hC
    simp only [Function.comp_apply, chunkDataPB_eq, List.length_take,
      List.length_drop]
    congr 1
    rw [Nat.mul_comm]
    generalize hx : chunkSize * (file.length / chunkSize) = x at hd ⊢
    omega
  refine ⟨by simp [sendFilePB], ?_, hcount, ?_, hflat, hlastlen, ?_, ?_, ?_⟩
  · simp only [sendFilePB]
    exact List.getLast?_concat _
  · simp only [sendFilePB, List.cons_append, List.filterMap_cons,
      List.filterMap_append, List.filterMap_map, chunkIndexOfPB]
    have h1 : (chunkIndexOfPB ∘ fun i => XferMsg.fileChunk transferId i
        (totalChunksPB chunkSize file.length) (chunkDataPB chunkSize file i))
        = some := by
      funext i
      rfl
    rw [h1]
    simp [List.filterMap_some]
  · intro h0
    have hfile : file = [] := List.length_eq_zero.mp h0
    subst hfile
    have hn0 : totalChunksPB chunkSize 0 = 0 := by
      unfold totalChunksPB
      exact Nat.div_eq_of_lt (by omega)
    simp [sendFilePB, hn0]
  · intro h40 h16
    constructor
    · rw [hcount, h40, h16]
      decide
    · have hmod : file.length % chunkSize ≠ 0 := by
        rw [h40, h16]
        decide
      rw [hlastlen hmod, h40, h16]
  · simp [sendFileW, sendFileChunksW, sendFileChunksGoW]

/-- Witness for C4 as amended, with a one-byte file at the reference chunk
size. -/
theorem C4_sendFile_message_sequence_witness :
    (([9] : List Nat).length % 16384 ≠ 0) ∧
    (((sendFilePB 16384 [9] "t" "f").filterMap chunkBytesOfPB).map
        List.length).getLast? = some (([9] : List Nat).length % 16384) :=
  ⟨by decide,
   (C4_sendFile_message_sequence 16384 [9] "t" "f" "bin"
      (by decide)).2.2.2.2.2.1 (by decide)⟩

/-- Counterexample to C4: webrtc.ts `sendFile` on an empty file emits one
(empty) `file-chunk` between `file-start` and `file-end` — not zero
chunks, and with no sequence number — because its read loop always sends
the first slice before checking `offset < file.size` (lines 459–480). -/
theorem C4_counterexample_size_zero_emits_chunk :
    sendFileW 16384 [] "t" "f" "bin"
      = [WMsg.fileStart "t" "f" 0 "bin", WMsg.fileChunk "t" [],
         WMsg.fileEnd "t"] ∧
    WMsg.fileChunk "t" [] ∈ sendFileW 16384 [] "t" "f" "bin" := by
  decide

/-! ## C5 — progress monotonicity and range -/

/-- The head of a scanl is its seed. -/
theorem scanl_add_head (b : Nat) (l : List Nat) :
    (List.scanl (· + ·) b l).head? = some b := by
  cases l <;> simp [List.scanl_nil, List.scanl_cons]

/-- Running sums are non-decreasing. -/
theorem scanl_add_chain (lens : List Nat) :
    ∀ a : Nat, (List.scanl (· + ·) a lens).Chain' (· ≤ ·) := by
  induction lens with
  | nil => intro a; simp [List.scanl_nil]
  | cons x t ih =>
    intro a
    rw [List.scanl_cons, List.singleton_append, List.chain'_cons']
    refine ⟨?_, ih (a + x)⟩
    intro y hy
    rw [scanl_add_head] at hy
    simp only [Option.mem_def, Option.some.injEq] at hy
    omega

/-- Running sums are bounded by the total. -/
theorem scanl_add_le_sum (lens : List Nat) :
    ∀ (a : Nat), ∀ o ∈ List.scanl (· + ·) a lens, o ≤ a + lens.sum := by
  induction lens with
  | nil => intro a o ho; simp [List.scanl_nil] at ho; omega
  | cons x t ih =>
    intro a o ho
    rw [List.scanl_cons, List.singleton_append] at ho
    rcases List.mem_cons.mp ho with h | h
    · subst h; simp
    · have := ih (a + x) o h
      simp only [List.sum_cons]
      omega

/-- The last running sum is the total. -/
theorem scanl_add_getLast (lens : List Nat) :
    ∀ a : Nat, (List.scanl (· + ·) a lens).getLast? = some (a + lens.sum) := by
  induction lens with
  | nil => intro a; simp [List.scanl_nil]
  | cons x t ih =>
    intro a
    rw [List.scanl_cons, List.singleton_append]
    cases ht : List.scanl (· + ·) (a + x) t with
    | nil =>
      exfalso
      have := List.length_scanl (f := (· + ·)) (a + x) t
      rw [ht] at this
      simp at this
    | cons z zs =>
      rw [List.getLast?_cons_cons, ← ht, ih (a + x), List.sum_cons]
      congr 1
      omega

/-- The chunk list of webrtc.ts `sendFile` is never empty (the first
slice is always sent). -/
theorem sendFileChunksW_ne_nil (chunkSize : Nat) (file : List Nat) :
    sendFileChunksW chunkSize file ≠ [] := by
  unfold sendFileChunksW
  simp only [sendFileChunksGoW]
  split <;> simp

/-- `Math.round((S / S) * 100) = 100` for a nonzero size. -/
theorem progressPctN_self (size : Nat) (hS : size ≠ 0) :
    progressPctN size size = 100 := by
  unfold progressPctN
  apply Nat.div_eq_of_lt_le <;> omega

/-- The rounded percentage is monotone in the byte count and bounded by
100 within the declared size. -/
theorem progressPctN_mono_le (size : Nat) (hS : size ≠ 0) :
    (∀ a b, a ≤ b → progressPctN a size ≤ progressPctN b size) ∧
    (∀ o, o ≤ size → progressPctN o size ≤ 100) := by
  constructor
  · intro a b hab
    exact Nat.div_le_div_right (by omega)
  · intro o ho
    have h1 : progressPctN o size ≤ progressPctN size size :=
      Nat.div_le_div_right (by omega)
    rw [progressPctN_self size hS] at h1
    exact h1

/-- Counterexample to C5: for a transfer of size 0, webrtc.ts `sendFile`
reports exactly one progress value, `Math.round((0 / 0) * 100) = NaN`
(modelled `none`) — not 100, and not a value in [0, 100]; the claim's
"size = 0 is treated as immediately 100%" fails, and 100 is never
reported. -/
theorem C5_counterexample_size_zero_progress :
    senderProgressW 16384 [] = [none] ∧
    some 100 ∉ senderProgressW 16384 [] := by
  decide

/-- C5 as amended: for every transfer of nonzero size driven by the
webrtc.ts sender (and mirrored on the receiver, which computes the same
formula over the same arriving chunk lengths), the reported progress
sequence consists of defined values, is non-decreasing, stays within
[0, 100], and its final value is exactly 100; for size 0 the single
reported value is `NaN` (see the counterexample). -/
theorem C5_progress_monotone_bounded (chunkSize : Nat) (file : List Nat)
    (hC : 0 < chunkSize) (hS : file.length ≠ 0) :
    (senderProgressW chunkSize file
      = ((offsetsAfter ((sendFileChunksW chunkSize file).map List.length)).map
          (fun o => progressPctN o file.length)).map some) ∧
    ((offsetsAfter ((sendFileChunksW chunkSize file).map List.length)).map
        (fun o => progressPctN o file.length)).Chain' (· ≤ ·) ∧
    (∀ p ∈ (offsetsAfter ((sendFileChunksW chunkSize file).map List.length)).map
        (fun o => progressPctN o file.length), p ≤ 100) ∧
    (((offsetsAfter ((sendFileChunksW chunkSize file).map List.length)).map
        (fun o => progressPctN o file.length)).getLast? = some 100) ∧
    receiverProgressW ((sendFileChunksW chunkSize file).map List.length)
        file.length = senderProgressW chunkSize file := by
  have hsum : ((sendFileChunksW chunkSize file).map List.length).sum
      = file.length := by
    have hj : (sendFileChunksW chunkSize file).flatten = file := by
      have := sendFileChunksGoW_join chunkSize file hC (file.length + 1) 0
        (Nat.zero_le _) (by omega)
      simpa [sendFileChunksW] using this
    rw [← List.length_flatten, hj]
  refine ⟨?_, ?_, ?_, ?_, rfl⟩
  · rw [senderProgressW, List.map_map]
    apply List.map_congr_left
    intro o _
    simp [progressPct, progressPctN, hS]
  · apply List.chain'_map_of_chain' _ ((progressPctN_mono_le file.length hS).1)
    exact (scanl_add_chain ((sendFileChunksW chunkSize file).map List.length)
      0).tail
  · intro p hp
    rcases List.mem_map.mp hp with ⟨o, ho, rfl⟩
    apply (progressPctN_mono_le file.length hS).2
    have hmem : o ∈ List.scanl (· + ·) 0
        ((sendFileChunksW chunkSize file).map List.length) :=
      List.mem_of_mem_tail ho
    have := scanl_add_le_sum
      ((sendFileChunksW chunkSize file).map List.length) 0 o hmem
    omega
  · rw [List.getLast?_map]
    have hne : (sendFileChunksW chunkSize file).map List.length ≠ [] := by
      rw [Ne, List.map_eq_nil_iff]
      exact sendFileChunksW_ne_nil chunkSize file
    cases hlens : (sendFileChunksW chunkSize file).map List.length with
    | nil => exact absurd hlens hne
    | cons x t =>
      have : offsetsAfter (x :: t) = List.scanl (· + ·) (0 + x) t := by
        simp [offsetsAfter, List.scanl_cons]
      rw [this, scanl_add_getLast t (0 + x)]
      have hsum2 : 0 + x + t.sum = file.length := by
        rw [hlens] at hsum
        simp only [List.sum_cons] at hsum
        omega
      rw [hsum2]
      simp [progressPctN_self file.length hS]

/-- Witness for C5 as amended, at a one-byte file. -/
theorem C5_progress_monotone_bounded_witness :
    0 < 16384 ∧ ([7] : List Nat).length ≠ 0 ∧
    ((offsetsAfter ((sendFileChunksW 16384 [7]).map List.length)).map
        (fun o => progressPctN o ([7] : List Nat).length)).getLast?
      = some 100 :=
  ⟨by decide, by decide,
   (C5_progress_monotone_bounded 16384 [7] (by decide)
      (by decide)).2.2.2.1⟩
